import Mathlib

/-!
Verification of the unlisted-stocks ingestion backend.

This file shallowly embeds the three Python modules of the repository:

* `models.py`   — the `UnlistedStock` row type and `create_unique_hash`;
* `scraper.py`  — `clean_text`, the two page extractors
  `parse_unlistedzone_page` / `parse_unlistedarena_page`, the persistence
  step `process_and_save`, and the coordinator `run_scrapers`;
* `main.py`     — the read endpoints `get_listings`, `get_latest_listings`
  and `search_listings`.

Modelling conventions:

* Python strings are `String`, `str.strip()` / `str.lower()` are embedded
  as `pyStrip` / `pyLower` over the character list (faithful on the ASCII
  and currency-symbol data this program handles).
* A Python dict field that a parser may leave out is an outer `Option`;
  a field that may be present but bound to `None` is an inner `Option`
  (so `Option (Option String)` distinguishes "key absent" from
  "key present, value None"), matching `dict.get(key, default)` semantics.
* `decimal.Decimal(text)` is embedded as `parseDecimal : String → Option ℚ`
  covering finite decimal literals (optional sign, digits, optional single
  fraction point); any other text fails, as the exception-raising paths do.
* Exceptions are `Option`: a `try`-block that returns `None` from its
  `except` arm becomes a function returning `none` on those paths.
* The database session is a `List UnlistedStock` in insertion order;
  `retrieved_at` (assigned by the store at insert time) is a `Nat`
  timestamp passed in explicitly.
* `hashlib.sha256(...).hexdigest()` is embedded as a full executable
  SHA-256 over the UTF-8 bytes, over `Nat` reduced mod 2^32.
-/

/-! ## Python string primitives -/

/-- Embedding of Python `str.strip()`: drop whitespace from both ends. -/
def pyStrip (s : String) : String :=
  String.mk (((s.data.dropWhile Char.isWhitespace).reverse.dropWhile
      Char.isWhitespace).reverse)

/-- Embedding of Python `str.lower()` (faithful on ASCII data). -/
def pyLower (s : String) : String :=
  String.mk (s.data.map Char.toLower)

/-- Embedding of Python `str.replace(old, '')` for a one-character `old`:
deletes every occurrence of the character. -/
def delChar (old : Char) (s : String) : String :=
  String.mk (s.data.filter (fun c => c ≠ old))

/-- Embedding of Python `str.replace(old, new)` for one-character `old` and
`new`: substitutes every occurrence of the character. -/
def subChar (old new : Char) (s : String) : String :=
  String.mk (s.data.map (fun c => if c = old then new else c))

/-- `startsWithChars n h` holds when `n` is an initial segment of `h`. -/
def startsWithChars : List Char → List Char → Bool
  | [], _ => true
  | _ :: _, [] => false
  | a :: as, b :: bs => a == b && startsWithChars as bs

/-- `containsChars n h`: the list `n` occurs contiguously inside `h`.
Embedding of the Python membership test `n in h` on strings. -/
def containsChars (n : List Char) : List Char → Bool
  | [] => startsWithChars n []
  | b :: bs => startsWithChars n (b :: bs) || containsChars n bs

/-- Embedding of Python `needle in hay` for strings. -/
def pyIn (needle hay : String) : Bool :=
  containsChars needle.data hay.data

/-! ## clean_text (scraper.py) -/

/-- Embedding of `scraper.clean_text` on a string argument:
`if not text: return None` then `text.strip().replace('\n',' ').replace('\r',' ')`.
Note each newline / carriage-return character is replaced by one space
apiece, so a run of `k` of them becomes `k` spaces. -/
def clean_text (text : String) : Option String :=
  if text = "" then none
  else some (subChar '\r' ' ' (subChar '\n' ' ' (pyStrip text)))

/-- `clean_text` applied to a value that may be Python `None`
(e.g. `tag.find_next_sibling(text=True)` can return `None`;
`clean_text(None)` returns `None` through the `if not text` guard). -/
def cleanTextOpt : Option String → Option String
  | none => none
  | some t => clean_text t

/-! ## Decimal parsing (decimal.Decimal) -/

/-- Numeric value of a digit list, most significant first. -/
def natOfDigits (l : List Char) : Nat :=
  l.foldl (fun a c => a * 10 + (c.toNat - 48)) 0

/-- Embedding of `decimal.Decimal(text)` for the finite decimal literals this
program feeds it (optional sign, digits, optional single point; at least one
digit): returns the exact rational value, or `none` where the constructor
raises `InvalidOperation`. Exponent forms and the special values
`NaN`/`Infinity` do not occur in this pipeline and are not modelled. -/
def parseDecimal (s : String) : Option ℚ :=
  let go : List Char → Option ℚ := fun cs =>
    let ip := cs.takeWhile Char.isDigit
    let rest := cs.dropWhile Char.isDigit
    match rest with
    | [] => if ip.isEmpty then none else some ((natOfDigits ip : ℚ))
    | '.' :: frac =>
      if frac.all Char.isDigit && !(ip.isEmpty && frac.isEmpty) then
        some (mkRat (Int.ofNat (natOfDigits (ip ++ frac))) (10 ^ frac.length))
      else none
    | _ => none
  match s.data with
  | '-' :: t => (go t).map (fun q => -q)
  | '+' :: t => go t
  | t => go t

/-! ## SHA-256 (hashlib.sha256, models.py) -/

/-- One 32-bit word: a natural number reduced modulo `2 ^ 32`. -/
def w32 (n : Nat) : Nat := n % 4294967296

/-- Right rotation of a 32-bit word by `k` bits. -/
def rotr32 (k x : Nat) : Nat := w32 ((x >>> k) ||| (x <<< (32 - k)))

/-- Bitwise complement within 32 bits. -/
def compl32 (x : Nat) : Nat := x ^^^ 4294967295

def shaCh (e f g : Nat) : Nat := (e &&& f) ^^^ (compl32 e &&& g)

def shaMaj (a b c : Nat) : Nat := (a &&& b) ^^^ (a &&& c) ^^^ (b &&& c)

def bigSigma0 (x : Nat) : Nat := rotr32 2 x ^^^ rotr32 13 x ^^^ rotr32 22 x

def bigSigma1 (x : Nat) : Nat := rotr32 6 x ^^^ rotr32 11 x ^^^ rotr32 25 x

def smallSigma0 (x : Nat) : Nat := rotr32 7 x ^^^ rotr32 18 x ^^^ (x >>> 3)

def smallSigma1 (x : Nat) : Nat := rotr32 17 x ^^^ rotr32 19 x ^^^ (x >>> 10)

/-- The SHA-256 round constants (FIPS 180-4, in decimal). -/
def shaK : List Nat :=
  [1116352408, 1899447441, 3049323471, 3921009573, 961987163,
   1508970993, 2453635748, 2870763221, 3624381080, 310598401,
   607225278, 1426881987, 1925078388, 2162078206, 2614888103,
   3248222580, 3835390401, 4022224774, 264347078, 604807628,
   770255983, 1249150122, 1555081692, 1996064986, 2554220882,
   2821834349, 2952996808, 3210313671, 3336571891, 3584528711,
   113926993, 338241895, 666307205, 773529912, 1294757372,
   1396182291, 1695183700, 1986661051, 2177026350, 2456956037,
   2730485921, 2820302411, 3259730800, 3345764771, 3516065817,
   3600352804, 4094571909, 275423344, 430227734, 506948616,
   659060556, 883997877, 958139571, 1322822218, 1537002063,
   1747873779, 1955562222, 2024104815, 2227730452, 2361852424,
   2428436474, 2756734187, 3204031479, 3329325298]

/-- The SHA-256 initial hash value (FIPS 180-4, in decimal). -/
def shaH0 : List Nat :=
  [1779033703, 3144134277, 1013904242, 2773480762, 1359893119,
   2600822924, 528734635, 1541459225]

/-- Split a byte list into chunks of `k + 1` bytes. -/
def chunksAux (k : Nat) : List Nat → List (List Nat)
  | [] => []
  | a :: rest => ((a :: rest).take (k + 1)) :: chunksAux k ((a :: rest).drop (k + 1))
termination_by l => l.length
decreasing_by simp [List.length_drop]; omega

/-- Big-endian word from a byte list. -/
def beWord (l : List Nat) : Nat := l.foldl (fun acc b => acc * 256 + b) 0

/-- The eight big-endian bytes of `8 * L` used in the SHA-256 padding. -/
def be64 (n : Nat) : List Nat :=
  [56, 48, 40, 32, 24, 16, 8, 0].map (fun s => (n >>> s) % 256)

/-- SHA-256 padding: append `0x80`, zeros to 56 mod 64, then the bit length. -/
def sha256pad (msg : List Nat) : List Nat :=
  let L := msg.length
  let zeros := (120 - ((L + 1) % 64)) % 64
  msg ++ 0x80 :: List.replicate zeros 0 ++ be64 (8 * L)

/-- Extend the 16-word message schedule by `n` further words. -/
def schedExtend (ws : List Nat) : Nat → List Nat
  | 0 => ws
  | n + 1 =>
    let i := ws.length
    let w := w32 (smallSigma1 (ws.getD (i - 2) 0) + ws.getD (i - 7) 0 +
                  smallSigma0 (ws.getD (i - 15) 0) + ws.getD (i - 16) 0)
    schedExtend (ws ++ [w]) n

/-- One SHA-256 compression round; the state is the word list
`[a, b, c, d, e, f, g, h]`, the argument the pair `(Wt, Kt)`. -/
def shaRound (st : List Nat) (wk : Nat × Nat) : List Nat :=
  let a := st.getD 0 0
  let b := st.getD 1 0
  let c := st.getD 2 0
  let d := st.getD 3 0
  let e := st.getD 4 0
  let f := st.getD 5 0
  let g := st.getD 6 0
  let h := st.getD 7 0
  let t1 := w32 (h + bigSigma1 e + shaCh e f g + wk.1 + wk.2)
  let t2 := w32 (bigSigma0 a + shaMaj a b c)
  [w32 (t1 + t2), a, b, c, w32 (d + t1), e, f, g]

/-- Compress one 64-byte block into the running hash value. -/
def processBlock (hv : List Nat) (block : List Nat) : List Nat :=
  let ws := schedExtend ((chunksAux 3 block).map beWord) 48
  let st := (ws.zip shaK).foldl shaRound hv
  (hv.zip st).map (fun p => w32 (p.1 + p.2))

/-- Lower-case hex digit. -/
def hexChar (n : Nat) : Char := "0123456789abcdef".data.getD n '0'

/-- Eight hex characters of a 32-bit word. -/
def hex8 (w : Nat) : List Char :=
  [28, 24, 20, 16, 12, 8, 4, 0].map (fun s => hexChar ((w >>> s) % 16))

/-- SHA-256 digest of a byte list, as a 64-character lower-case hex string. -/
def sha256hexBytes (msg : List Nat) : String :=
  let hv := (chunksAux 63 (sha256pad msg)).foldl processBlock shaH0
  String.mk (hv.foldr (fun w acc => hex8 w ++ acc) [])

/-- UTF-8 bytes of one character. -/
def charUtf8 (c : Char) : List Nat :=
  let n := c.toNat
  if n < 0x80 then [n]
  else if n < 0x800 then
    [0xC0 ||| (n >>> 6), 0x80 ||| (n &&& 0x3F)]
  else if n < 0x10000 then
    [0xE0 ||| (n >>> 12), 0x80 ||| ((n >>> 6) &&& 0x3F), 0x80 ||| (n &&& 0x3F)]
  else
    [0xF0 ||| (n >>> 18), 0x80 ||| ((n >>> 12) &&& 0x3F),
     0x80 ||| ((n >>> 6) &&& 0x3F), 0x80 ||| (n &&& 0x3F)]

/-- Embedding of `str.encode('utf-8')`. -/
def strBytes (s : String) : List Nat :=
  s.data.foldr (fun c acc => charUtf8 c ++ acc) []

/-- SHA-256 hex digest of a string's UTF-8 bytes:
`hashlib.sha256(x.encode('utf-8')).hexdigest()`. -/
def sha256hex (s : String) : String := sha256hexBytes (strBytes s)

/-! ## models.py: create_unique_hash -/

/-- Embedding of `models.create_unique_hash`: SHA-256 hex digest of
`company_name.strip().lower() + "||" + source_url.strip().lower()`. -/
def create_unique_hash (company_name source_url : String) : String :=
  sha256hex (pyLower (pyStrip company_name) ++ "||" ++ pyLower (pyStrip source_url))

/-! ## The scraped-item dictionary and the database row -/

/-- A scraped item: the Python dict built by the page parsers and consumed by
`process_and_save`. An outer `none` means the key is absent from the dict; for
keys the parsers may bind to Python `None`, the inner `Option` carries that
(so `some none` is "key present, value None"). `source_url` and `source_name`
are set unconditionally, and `company_name`'s key is always set (possibly to
`None`) in every dict a parser returns. `last_known_price` is only ever set to
a successfully parsed `Decimal`, hence a single `Option`. -/
structure Item where
  source_url : String
  source_name : String
  company_name : Option String
  status : Option (Option String)
  last_known_price : Option ℚ
  price_currency : Option (Option String)
  sector : Option (Option String)
  country : Option (Option String)
  metadata : Option (List (String × Option String))
deriving DecidableEq, Repr

/-- The initial dict `{"source_url": url, "source_name": name}` together with
the `company_name` entry both parsers assign before reading any other field. -/
def baseItem (url source : String) (cname : Option String) : Item :=
  { source_url := url, source_name := source, company_name := cname,
    status := none, last_known_price := none, price_currency := none,
    sector := none, country := none, metadata := none }

/-- The `unlisted_stocks` row (`models.UnlistedStock`), restricted to the
columns this pipeline writes; `retrieved_at` is the store-assigned insertion
timestamp (`server_default=func.now()`), modelled as a `Nat`. -/
structure UnlistedStock where
  unique_hash : String
  company_name : String
  status : Option String
  last_known_price : Option ℚ
  price_currency : Option String
  sector : Option String
  country : Option String
  source_name : String
  source_url : String
  additional_metadata : Option (List (String × Option String))
  retrieved_at : Nat
deriving DecidableEq, Repr

/-- Embedding of `item.get(key, default)` for a key whose stored value may
itself be Python `None`: the default fires only when the key is absent. -/
def getOrDefault (v : Option (Option String)) (d : String) : Option String :=
  match v with
  | none => some d
  | some x => x

/-- The row constructed by `process_and_save` step 2c (`UnlistedStock(...)`),
with the three `.get(key, default)` defaults and the plain `.get` reads. -/
def mkStockRow (now : Nat) (hash_id name : String) (item : Item) : UnlistedStock :=
  { unique_hash := hash_id,
    company_name := name,
    status := getOrDefault item.status "Pre-IPO",
    last_known_price := item.last_known_price,
    price_currency := getOrDefault item.price_currency "INR",
    sector := item.sector.join,
    country := getOrDefault item.country "India",
    source_name := item.source_name,
    source_url := item.source_url,
    additional_metadata := item.metadata,
    retrieved_at := now }

/-- The duplicate check of step 2b:
`db.query(UnlistedStock).filter(UnlistedStock.unique_hash == hash_id).first()`
is some row exactly when a row with that hash is in the store. -/
def hashIn (db : List UnlistedStock) (h : String) : Bool :=
  db.any (fun s => s.unique_hash == h)

/-- Embedding of `scraper.process_and_save`. The session is a row list in
insertion order. Result `none` is an uncaught exception propagating to the
caller: with `company_name` bound to Python `None`,
`create_unique_hash(None, ...)` raises `AttributeError` before any store
access (the function's own `try` only wraps `add`/`commit`). In this
single-writer model the commit always succeeds, so the `IntegrityError` and
general `except` arms (which roll back and leave the store unchanged) are
not reachable. -/
def process_and_save (now : Nat) (db : List UnlistedStock) (item : Item) :
    Option (List UnlistedStock) :=
  match item.company_name with
  | none => none
  | some name =>
    let hash_id := create_unique_hash name item.source_url
    if hashIn db hash_id then some db
    else some (db ++ [mkStockRow now hash_id name item])

/-! ## scraper.py: the page parsers -/

/-- What `parse_unlistedzone_page` reads from a page: the text of the first
`<h1>` (`none` when `soup.find('h1')` is `None`, in which case `.text` raises
`AttributeError`), and for each `<strong>` tag its text together with the text
of `tag.find_next_sibling(text=True)` (`none` when that sibling is absent). -/
structure ZonePage where
  h1 : Option String
  strongs : List (String × Option String)
deriving DecidableEq, Repr

/-- One iteration of the `<strong>`-tag loop of `parse_unlistedzone_page`.
The three label tests are independent `if`s (not `elif`) and the price
branch raises out of the whole parse (`none`) when the sibling text is
`None` (`None.replace` raises) or `decimal.Decimal` rejects the cleaned
text. -/
def zoneStep (item : Item) (tag : String × Option String) : Option Item :=
  match clean_text tag.1 with
  | none => some item
  | some tag_text =>
    let afterPrice : Option Item :=
      if pyIn "Buy Price" tag_text then
        match cleanTextOpt tag.2 with
        | none => none
        | some price_str =>
          match parseDecimal (pyStrip (delChar ',' (delChar '₹' price_str))) with
          | none => none
          | some d => some { item with last_known_price := some d,
                                       price_currency := some (some "INR") }
      else some item
    match afterPrice with
    | none => none
    | some item1 =>
      let item2 := if pyIn "Sector" tag_text then
          { item1 with sector := some (cleanTextOpt tag.2) } else item1
      let item3 := if pyIn "Status" tag_text then
          { item2 with status := some (cleanTextOpt tag.2) } else item2
      some item3

/-- The `<strong>`-tag loop: an exception in any step aborts the parse. -/
def zoneLoop (item : Item) : List (String × Option String) → Option Item
  | [] => some item
  | t :: ts =>
    match zoneStep item t with
    | none => none
    | some item2 => zoneLoop item2 ts

/-- Embedding of `scraper.parse_unlistedzone_page`; `none` is the
`except`-arm (`return None`). -/
def parse_unlistedzone_page (url : String) (page : ZonePage) : Option Item :=
  match page.h1 with
  | none => none
  | some h1text =>
    zoneLoop (baseItem url "UnlistedZone" (clean_text h1text)) page.strongs

/-- What `parse_unlistedarena_page` reads: the first `<h1>`'s text (checked
explicitly; missing tag returns `None`), and, when the
`table.unlisted-price-table` is found, the list of its rows as lists of
`<td>` cell texts. -/
structure ArenaPage where
  h1 : Option String
  priceTable : Option (List (List String))
deriving DecidableEq, Repr

/-- The row dict-update `item.setdefault("metadata", {})["face_value"] = value`. -/
def setFaceValue (m : Option (List (String × Option String))) (v : Option String) :
    List (String × Option String) :=
  let m0 := m.getD []
  if m0.any (fun p => p.1 == "face_value") then
    m0.map (fun p => if p.1 == "face_value" then ("face_value", v) else p)
  else m0 ++ [("face_value", v)]

/-- One row of the arena price table. Rows without exactly two cells are
skipped; a key cell whose cleaned text is `None` raises
(`None.replace(':','')`), as does an unparseable price value, aborting the
whole parse. The label tests here are an `if`/`elif` chain. -/
def arenaRow (item : Item) (cells : List String) : Option Item :=
  if cells.length = 2 then
    match clean_text (cells.getD 0 "") with
    | none => none
    | some k =>
      let key := delChar ':' k
      let value := clean_text (cells.getD 1 "")
      if pyIn "Unlisted Share Price" key then
        match value with
        | none => none
        | some v =>
          match parseDecimal (pyStrip (delChar ',' (delChar '₹' v))) with
          | none => none
          | some d => some { item with last_known_price := some d,
                                       price_currency := some (some "INR") }
      else if pyIn "Sector" key then
        some { item with sector := some value }
      else if pyIn "Face Value" key then
        some { item with metadata := some (setFaceValue item.metadata value) }
      else some item
  else some item

/-- The row loop of `parse_unlistedarena_page`. -/
def arenaLoop (item : Item) : List (List String) → Option Item
  | [] => some item
  | r :: rs =>
    match arenaRow item r with
    | none => none
    | some item2 => arenaLoop item2 rs

/-- Embedding of `scraper.parse_unlistedarena_page`. -/
def parse_unlistedarena_page (url : String) (page : ArenaPage) : Option Item :=
  match page.h1 with
  | none => none
  | some h1text =>
    let item0 := baseItem url "UnlistedArena" (clean_text h1text)
    match page.priceTable with
    | none => some item0
    | some rows => arenaLoop item0 rows

/-! ## scraper.py: the coordinator -/

/-- One configured task of `run_scrapers`, given a fixed set of fetch
responses: `fetch` is `none` when `requests.get` raises (network error or
timeout) and `some status` otherwise; `scraped` is what
`parser_func(target_url, response.text)` returns on the fetched body when
the status is 200. -/
structure TaskRun where
  fetch : Option Nat
  scraped : Option Item
deriving DecidableEq, Repr

/-- The body of the per-task loop of `run_scrapers`: every failure (fetch
exception, non-200 status, parser `None` — falsy dict — or an exception out of
`process_and_save`) is caught or skipped and leaves the store as it was. -/
def stepTask (now : Nat) (db : List UnlistedStock) (t : TaskRun) : List UnlistedStock :=
  match t.fetch with
  | none => db
  | some status =>
    if status = 200 then
      match t.scraped with
      | none => db
      | some item =>
        match process_and_save now db item with
        | none => db
        | some db2 => db2
    else db

/-- Embedding of `scraper.run_scrapers` over its task list: the tasks are
processed sequentially in list order, each against the store state the
previous tasks left. -/
def run_scrapers (now : Nat) (db : List UnlistedStock) : List TaskRun → List UnlistedStock
  | [] => db
  | t :: ts => run_scrapers now (stepTask now db t) ts

/-! ## main.py: the read endpoints -/

/-- Python truthiness of an `Optional[str]` query parameter: `if sector:`
is false for both `None` and the empty string. -/
def truthy : Option String → Bool
  | none => false
  | some s => s ≠ ""

/-- The `ORDER BY retrieved_at DESC` comparison. -/
def retDesc (a b : UnlistedStock) : Bool := Nat.ble b.retrieved_at a.retrieved_at

/-- Embedding of `main.get_listings`: optional exact-match filters on
`sector` and `country` (applied only when the parameter is truthy; a SQL
`col = v` comparison is false on a NULL column), then
`ORDER BY retrieved_at DESC LIMIT limit`; the limit defaults to 50. -/
def get_listings (db : List UnlistedStock) (sector country : Option String)
    (limit : Nat := 50) : List UnlistedStock :=
  let q1 := if truthy sector then db.filter (fun x => x.sector == sector) else db
  let q2 := if truthy country then q1.filter (fun x => x.country == country) else q1
  (q2.mergeSort retDesc).take limit

/-- Embedding of `main.get_latest_listings`: `get_listings` with limit 10. -/
def get_latest_listings (db : List UnlistedStock) : List UnlistedStock :=
  get_listings db none none 10

/-- SQL `LIKE` matching over characters: `%` matches any run, `_` any one
character, anything else itself. -/
def likeMatch : List Char → List Char → Bool
  | [], s => s.isEmpty
  | p :: ps, s =>
    if p = '%' then
      likeMatch ps s ||
        (match s with
         | [] => false
         | _ :: t => likeMatch (p :: ps) t)
    else
      match s with
      | [] => false
      | c :: t => if p = '_' then likeMatch ps t else p == c && likeMatch ps t
termination_by p s => (s.length, p.length)

/-- Embedding of `main.search_listings`: empty query short-circuits to `[]`;
otherwise rows whose `company_name` matches `ILIKE '%q%'` (case-insensitive
`LIKE`, embedded by lowering both sides), `ORDER BY retrieved_at DESC
LIMIT 25`. -/
def search_listings (q : String) (db : List UnlistedStock) : List UnlistedStock :=
  if q = "" then []
  else
    let search_term := "%" ++ q ++ "%"
    ((db.filter (fun x =>
        likeMatch (pyLower search_term).data (pyLower x.company_name).data)).mergeSort
      retDesc).take 25

/-! ## Helper lemmas about process_and_save -/

/-- When the item's dedup key is absent from the store, `process_and_save`
appends exactly the row built by `mkStockRow`. -/
theorem process_and_save_insert (now : Nat) (db : List UnlistedStock) (item : Item)
    (name : String) (hname : item.company_name = some name)
    (habs : hashIn db (create_unique_hash name item.source_url) = false) :
    process_and_save now db item =
      some (db ++ [mkStockRow now (create_unique_hash name item.source_url) name item]) := by
  unfold process_and_save
  rw [hname]
  simp [habs]

/-- When the item's dedup key is already in the store, `process_and_save`
performs no write: the store comes back unchanged. -/
theorem process_and_save_skip (now : Nat) (db : List UnlistedStock) (item : Item)
    (name : String) (hname : item.company_name = some name)
    (hdup : hashIn db (create_unique_hash name item.source_url) = true) :
    process_and_save now db item = some db := by
  unfold process_and_save
  rw [hname]
  simp [hdup]

/-! ## C2 -/

/-- C2: the dedup key function returns the same key for every pair of inputs
that agree after trimming and lowercasing (in particular for inputs differing
only in letter case and leading/trailing whitespace); by its type,
`create_unique_hash` takes only the company name and the source URL, so the
key depends on no other field. -/
theorem C2_dedup_key_normalization (n₁ u₁ n₂ u₂ : String)
    (hn : pyLower (pyStrip n₁) = pyLower (pyStrip n₂))
    (hu : pyLower (pyStrip u₁) = pyLower (pyStrip u₂)) :
    create_unique_hash n₁ u₁ = create_unique_hash n₂ u₂ := by
  unfold create_unique_hash
  rw [hn, hu]

/-- Witness for C2 at the spec's own example pair. -/
theorem C2_dedup_key_normalization_witness :
    pyLower (pyStrip "Acme Corp") = pyLower (pyStrip "  acme corp  ")
    ∧ pyLower (pyStrip "http://X/a") = pyLower (pyStrip "HTTP://X/A")
    ∧ create_unique_hash "Acme Corp" "http://X/a"
        = create_unique_hash "  acme corp  " "HTTP://X/A" :=
  ⟨by decide, by decide,
    C2_dedup_key_normalization "Acme Corp" "http://X/a" "  acme corp  " "HTTP://X/A"
      (by decide) (by decide)⟩

/-! ## C5 -/

/-- Modelled from the spec's words of C5, for comparison with `clean_text`:
after trimming, every maximal run of newline/carriage-return characters is
replaced by exactly one space. -/
def collapseRunsGo : Bool → List Char → List Char
  | _, [] => []
  | inRun, c :: cs =>
    if c == '\n' || c == '\r' then
      (if inRun then [] else [' ']) ++ collapseRunsGo true cs
    else c :: collapseRunsGo false cs

/-- Modelled from the spec's words of C5: trim, then collapse each maximal
newline/carriage-return run to a single space. -/
def specCollapseRuns (s : String) : String :=
  String.mk (collapseRunsGo false (pyStrip s).data)

/-- C5 counterexample: on `"a\n\nb"` the code replaces each of the two
newlines with its own space, producing two consecutive spaces, while the
claim's collapse-to-a-single-space normalization would produce one. -/
theorem C5_counterexample_newline_runs :
    clean_text "a\n\nb" = some "a  b"
    ∧ specCollapseRuns "a\n\nb" = "a b"
    ∧ ("a  b" : String) ≠ "a b" := by
  refine ⟨by decide, by decide, by decide⟩

/-- Substitution applied to each character by `clean_text` after trimming. -/
def substNL (c : Char) : Char :=
  if c = '\n' then ' ' else if c = '\r' then ' ' else c

/-- substNL never produces a newline or carriage return. -/
theorem substNL_ne (c : Char) : substNL c ≠ '\n' ∧ substNL c ≠ '\r' := by
  unfold substNL
  split
  · exact ⟨by decide, by decide⟩
  · split
    · exact ⟨by decide, by decide⟩
    · constructor <;> simp_all

/-- C5 (amended): on a nonempty input `clean_text` trims and then replaces
each embedded newline/carriage-return character with one space apiece (so a
maximal run of `k` such characters becomes exactly `k` spaces, not one);
consequently the output has the trimmed input's length and contains no
newline or carriage return. -/
theorem C5_each_newline_one_space (s : String) (h : s ≠ "") :
    clean_text s = some (String.mk ((pyStrip s).data.map substNL))
    ∧ ∀ t, clean_text s = some t →
        t.data.length = (pyStrip s).data.length ∧ ∀ c ∈ t.data, c ≠ '\n' ∧ c ≠ '\r' := by
  have heq : clean_text s = some (String.mk ((pyStrip s).data.map substNL)) := by
    unfold clean_text subChar
    rw [if_neg h]
    simp only [Option.some.injEq]
    congr 1
    rw [List.map_map]
    apply List.map_congr_left
    intro c _
    by_cases h1 : c = '\n'
    · simp [substNL, h1]
    · by_cases h2 : c = '\r'
      · simp [substNL, h1, h2]
      · simp [substNL, h1, h2]
  refine ⟨heq, ?_⟩
  intro t ht
  rw [heq] at ht
  have : t = String.mk ((pyStrip s).data.map substNL) := (Option.some.injEq _ _).mp ht.symm
  subst this
  constructor
  · simp
  · intro c hc
    obtain ⟨c', _, rfl⟩ := List.mem_map.mp hc
    exact substNL_ne c'

/-- Witness for C5's amended statement at a concrete input. -/
theorem C5_each_newline_one_space_witness :
    ("a\nb" : String) ≠ ""
    ∧ clean_text "a\nb" = some (String.mk ((pyStrip "a\nb").data.map substNL)) :=
  ⟨by decide, (C5_each_newline_one_space "a\nb" (by decide)).1⟩

/-! ## C6 -/

/-- C6: a `Buy Price` field with text `"₹ 1,234.50"` is normalized to the
exact decimal amount 1234.50 with currency `"INR"` by the UnlistedZone
extractor (currency symbol and thousands separator stripped before
parsing). -/
theorem C6_price_normalization :
    (parse_unlistedzone_page "http://u"
        ⟨some "HDB Financial", [("Buy Price", some "₹ 1,234.50")]⟩).map
      (fun it => (it.last_known_price, it.price_currency))
    = some (some (1234.50 : ℚ), some (some "INR")) := by
  have h1 : (parse_unlistedzone_page "http://u"
        ⟨some "HDB Financial", [("Buy Price", some "₹ 1,234.50")]⟩).map
      (fun it => (it.last_known_price, it.price_currency))
    = some (some (mkRat 123450 100), some (some "INR")) := by decide
  rw [h1]
  simp only [Option.some.injEq, Prod.mk.injEq]
  refine ⟨?_, trivial⟩
  norm_num [Rat.mkRat_eq_div]

/-! ## C10 -/

/-- C10: searching with the empty query string returns the empty list for
every store state (the endpoint short-circuits before querying the store). -/
theorem C10_empty_query_returns_empty (db : List UnlistedStock) :
    search_listings "" db = [] := rfl

/-! ## C7 and C9: persistence-time defaults -/

/-- C7: at persistence time, for every non-duplicate draft, `process_and_save`
persists status as `"Pre-IPO"`, price_currency as `"INR"` and country as
`"India"` exactly when the corresponding key is absent from the draft dict,
and persists the draft's own value whenever the key is present — the
defaults never override present values. -/
theorem C7_persistence_defaults (now : Nat) (db : List UnlistedStock) (item : Item)
    (name : String) (hname : item.company_name = some name)
    (habs : hashIn db (create_unique_hash name item.source_url) = false) :
    ∃ r, process_and_save now db item = some (db ++ [r])
      ∧ (item.status = none → r.status = some "Pre-IPO")
      ∧ (∀ v, item.status = some v → r.status = v)
      ∧ (item.price_currency = none → r.price_currency = some "INR")
      ∧ (∀ v, item.price_currency = some v → r.price_currency = v)
      ∧ (item.country = none → r.country = some "India")
      ∧ (∀ v, item.country = some v → r.country = v) := by
  refine ⟨mkStockRow now (create_unique_hash name item.source_url) name item,
    process_and_save_insert now db item name hname habs, ?_, ?_, ?_, ?_, ?_, ?_⟩
  · intro h; simp [mkStockRow, getOrDefault, h]
  · intro v h; simp [mkStockRow, getOrDefault, h]
  · intro h; simp [mkStockRow, getOrDefault, h]
  · intro v h; simp [mkStockRow, getOrDefault, h]
  · intro h; simp [mkStockRow, getOrDefault, h]
  · intro v h; simp [mkStockRow, getOrDefault, h]

/-- Witness for C7: a draft with all three default-eligible keys absent,
against the empty store. -/
theorem C7_persistence_defaults_witness :
    (baseItem "u" "S" (some "Acme")).company_name = some "Acme"
    ∧ hashIn []
        (create_unique_hash "Acme" (baseItem "u" "S" (some "Acme")).source_url) = false
    ∧ (process_and_save 0 [] (baseItem "u" "S" (some "Acme"))).isSome = true := by
  refine ⟨rfl, rfl, ?_⟩
  obtain ⟨r, hr, -⟩ := C7_persistence_defaults 0 [] (baseItem "u" "S" (some "Acme"))
    "Acme" rfl rfl
  rw [hr]
  rfl

/-- C9: the persistence-time defaults fire only when the key is entirely
absent from the draft dict; a key present but bound to Python `None`
(as `clean_text` produces for an empty labeled text) is persisted as a null
value, not as the default. -/
theorem C9_present_none_persisted_null (now : Nat) (db : List UnlistedStock) (item : Item)
    (name : String) (hname : item.company_name = some name)
    (habs : hashIn db (create_unique_hash name item.source_url) = false) :
    ∃ r, process_and_save now db item = some (db ++ [r])
      ∧ (item.status = some none → r.status = none)
      ∧ (item.price_currency = some none → r.price_currency = none)
      ∧ (item.country = some none → r.country = none) := by
  refine ⟨mkStockRow now (create_unique_hash name item.source_url) name item,
    process_and_save_insert now db item name hname habs, ?_, ?_, ?_⟩
  · intro h; simp [mkStockRow, getOrDefault, h]
  · intro h; simp [mkStockRow, getOrDefault, h]
  · intro h; simp [mkStockRow, getOrDefault, h]

/-- The draft the UnlistedZone extractor produces from a page whose `Status`
label has empty adjacent text: the status key is present, bound to `None`. -/
def itemC9 : Item :=
  { source_url := "u", source_name := "UnlistedZone", company_name := some "Acme",
    status := some none, last_known_price := none, price_currency := none,
    sector := none, country := none, metadata := none }

/-- Witness for C9: the `Status` label with empty text yields a draft whose
status key is present with value `None`, and persisting it succeeds. -/
theorem C9_present_none_persisted_null_witness :
    parse_unlistedzone_page "u" ⟨some "Acme", [("Status", some "")]⟩ = some itemC9
    ∧ itemC9.company_name = some "Acme"
    ∧ itemC9.status = some none
    ∧ hashIn [] (create_unique_hash "Acme" itemC9.source_url) = false
    ∧ (process_and_save 0 [] itemC9).isSome = true := by
  refine ⟨by decide, rfl, rfl, rfl, ?_⟩
  obtain ⟨r, hr, -⟩ := C9_present_none_persisted_null 0 [] itemC9 "Acme" rfl rfl
  rw [hr]
  rfl

/-! ## C3: unparseable price fields are draft-fatal -/

/-- A `<strong>` entry of an UnlistedZone page that carries the price label
but whose value text fails price extraction: either the labelled sibling text
is missing/empty (so `None.replace` raises) or the cleaned text is rejected
by `decimal.Decimal`. -/
def zonePriceFails (t : String × Option String) : Bool :=
  match clean_text t.1 with
  | none => false
  | some tag_text =>
    pyIn "Buy Price" tag_text &&
      (match cleanTextOpt t.2 with
       | none => true
       | some ps => (parseDecimal (pyStrip (delChar ',' (delChar '₹' ps)))).isNone)

/-- A failing price entry makes the zone loop step raise regardless of the
draft accumulated so far. -/
theorem zoneStep_of_priceFails (t : String × Option String)
    (hf : zonePriceFails t = true) (item : Item) : zoneStep item t = none := by
  unfold zonePriceFails at hf
  cases hct : clean_text t.1 with
  | none => rw [hct] at hf; exact absurd hf (by simp)
  | some tag_text =>
    rw [hct] at hf
    rw [Bool.and_eq_true] at hf
    obtain ⟨hin, hval⟩ := hf
    simp only [zoneStep, hct, hin, if_true]
    cases hcv : cleanTextOpt t.2 with
    | none => simp
    | some ps =>
      rw [hcv] at hval
      simp at hval
      simp [hval]

/-- If any entry of the `<strong>` list fails price extraction, the whole
zone loop raises. -/
theorem zoneLoop_of_priceFails (l : List (String × Option String))
    (h : ∃ t ∈ l, zonePriceFails t = true) (item : Item) :
    zoneLoop item l = none := by
  induction l generalizing item with
  | nil => obtain ⟨t, ht, -⟩ := h; cases ht
  | cons hd tl ih =>
    obtain ⟨t, ht, hf⟩ := h
    cases List.mem_cons.mp ht with
    | inl heq =>
      subst heq
      unfold zoneLoop
      rw [zoneStep_of_priceFails t hf item]
    | inr htl =>
      unfold zoneLoop
      cases hs : zoneStep item hd with
      | none => rfl
      | some item2 => exact ih ⟨t, htl, hf⟩ item2

/-- A two-cell row of an UnlistedArena price table that carries the price
label but whose value fails price extraction. -/
def arenaPriceFails (cells : List String) : Bool :=
  (cells.length == 2) &&
    (match clean_text (cells.getD 0 "") with
     | none => false
     | some k =>
       pyIn "Unlisted Share Price" (delChar ':' k) &&
         (match clean_text (cells.getD 1 "") with
          | none => true
          | some v => (parseDecimal (pyStrip (delChar ',' (delChar '₹' v)))).isNone))

/-- A failing price row makes the arena row step raise regardless of the
draft accumulated so far. -/
theorem arenaRow_of_priceFails (cells : List String)
    (hf : arenaPriceFails cells = true) (item : Item) : arenaRow item cells = none := by
  unfold arenaPriceFails at hf
  rw [Bool.and_eq_true] at hf
  obtain ⟨hlen, hrest⟩ := hf
  have hlen2 : cells.length = 2 := by simpa using hlen
  cases hck : clean_text (cells.getD 0 "") with
  | none => rw [hck] at hrest; exact absurd hrest (by simp)
  | some k =>
    rw [hck] at hrest
    rw [Bool.and_eq_true] at hrest
    obtain ⟨hin, hval⟩ := hrest
    simp only [arenaRow]
    rw [if_pos hlen2]
    simp only [hck, hin, if_true]
    cases hcv : clean_text (cells.getD 1 "") with
    | none => simp
    | some v =>
      rw [hcv] at hval
      simp at hval
      simp [hval]

/-- If any row of the price table fails price extraction, the whole arena
row loop raises. -/
theorem arenaLoop_of_priceFails (rows : List (List String))
    (h : ∃ r ∈ rows, arenaPriceFails r = true) (item : Item) :
    arenaLoop item rows = none := by
  induction rows generalizing item with
  | nil => obtain ⟨r, hr, -⟩ := h; cases hr
  | cons hd tl ih =>
    obtain ⟨r, hr, hf⟩ := h
    cases List.mem_cons.mp hr with
    | inl heq =>
      subst heq
      unfold arenaLoop
      rw [arenaRow_of_priceFails r hf item]
    | inr htl =>
      unfold arenaLoop
      cases hs : arenaRow item hd with
      | none => rfl
      | some item2 => exact ih ⟨r, htl, hf⟩ item2

/-- C3 counterexample: in both extractors, a present price label whose text
does not parse as a decimal amount makes the whole extraction return `None`
— no draft (with or without the price field) is produced, refuting the
claimed field-scoped failure policy. -/
theorem C3_counterexample_price_fatal :
    parse_unlistedzone_page "http://u" ⟨some "Acme", [("Buy Price", some "N/A")]⟩ = none
    ∧ parse_unlistedarena_page "http://a"
        ⟨some "Tata", some [["Unlisted Share Price:", "TBD"]]⟩ = none := by
  refine ⟨by decide, by decide⟩

/-- C3 (amended): the price-parsing failure policy is draft-fatal, applied
consistently across both source extractors: whenever a page contains a
labelled price field whose text fails to parse as a decimal amount, the
extractor returns no draft at all (the exception aborts the whole
extraction). -/
theorem C3_price_parse_draft_fatal (urlz urla : String) (zp : ZonePage) (ap : ArenaPage)
    (hz : ∃ t ∈ zp.strongs, zonePriceFails t = true)
    (ha : ∃ rows, ap.priceTable = some rows ∧ ∃ r ∈ rows, arenaPriceFails r = true) :
    parse_unlistedzone_page urlz zp = none ∧ parse_unlistedarena_page urla ap = none := by
  constructor
  · unfold parse_unlistedzone_page
    cases zp.h1 with
    | none => rfl
    | some h1text => exact zoneLoop_of_priceFails zp.strongs hz _
  · obtain ⟨rows, hrows, hr⟩ := ha
    unfold parse_unlistedarena_page
    cases ap.h1 with
    | none => rfl
    | some h1text =>
      rw [hrows]
      exact arenaLoop_of_priceFails rows hr _

/-- Witness for C3's amended statement at concrete failing pages. -/
theorem C3_price_parse_draft_fatal_witness :
    zonePriceFails ("Buy Price", some "N/A") = true
    ∧ arenaPriceFails ["Unlisted Share Price:", "TBD"] = true
    ∧ parse_unlistedzone_page "http://u" ⟨some "Acme", [("Buy Price", some "N/A")]⟩ = none :=
  ⟨by decide, by decide,
    (C3_price_parse_draft_fatal "http://u" "http://a"
      ⟨some "Acme", [("Buy Price", some "N/A")]⟩
      ⟨some "Tata", some [["Unlisted Share Price:", "TBD"]]⟩
      ⟨("Buy Price", some "N/A"), by decide, by decide⟩
      ⟨[["Unlisted Share Price:", "TBD"]], rfl,
        ⟨["Unlisted Share Price:", "TBD"], by decide, by decide⟩⟩).1⟩

/-! ## C4: failure isolation in the coordinator -/

/-- A task that fails before reaching a successful persist: the fetch raised,
the status was not 200, the parser returned `None`, or `process_and_save`
raised (draft company name bound to Python `None`). -/
def taskFails (t : TaskRun) : Bool :=
  match t.fetch with
  | none => true
  | some status =>
    if status = 200 then
      match t.scraped with
      | none => true
      | some item => item.company_name.isNone
    else true

/-- A failing task leaves the store exactly as it was. -/
theorem stepTask_of_fails (now : Nat) (db : List UnlistedStock) (t : TaskRun)
    (hf : taskFails t = true) : stepTask now db t = db := by
  unfold taskFails at hf
  cases hft : t.fetch with
  | none => simp [stepTask, hft]
  | some status =>
    rw [hft] at hf
    simp only at hf
    by_cases h200 : status = 200
    · rw [if_pos h200] at hf
      cases hsc : t.scraped with
      | none => simp [stepTask, hft, h200, hsc]
      | some item =>
        rw [hsc] at hf
        simp only at hf
        cases hcn : item.company_name with
        | none => simp [stepTask, hft, h200, hsc, process_and_save, hcn]
        | some name => rw [hcn] at hf; simp at hf
    · simp [stepTask, hft, h200]

/-- The coordinator processes an appended task list by processing the first
part and continuing with the second on the resulting store. -/
theorem run_scrapers_append (now : Nat) (ts₁ ts₂ : List TaskRun) :
    ∀ db, run_scrapers now db (ts₁ ++ ts₂)
      = run_scrapers now (run_scrapers now db ts₁) ts₂ := by
  induction ts₁ with
  | nil => intro db; rfl
  | cons t ts ih => intro db; exact ih (stepTask now db t)

/-- C4: one task's failure never aborts the run — with a failing task
anywhere in the list, the run equals the run over the surrounding tasks
alone, so every subsequent task is still processed against the store the
earlier tasks produced, and succeeding tasks still persist. -/
theorem C4_failure_isolation (now : Nat) (db : List UnlistedStock)
    (pre post : List TaskRun) (bad : TaskRun) (hb : taskFails bad = true) :
    run_scrapers now db (pre ++ bad :: post)
      = run_scrapers now (run_scrapers now db pre) post := by
  rw [run_scrapers_append]
  show run_scrapers now (stepTask now (run_scrapers now db pre) bad) post
    = run_scrapers now (run_scrapers now db pre) post
  rw [stepTask_of_fails now _ bad hb]

/-- Witness for C4: three tasks whose middle fetch returns status 500; the
run equals processing just the first and third. -/
theorem C4_failure_isolation_witness :
    taskFails ⟨some 500, none⟩ = true
    ∧ run_scrapers 0 []
        [⟨some 200, some (baseItem "u1" "S1" (some "Acme"))⟩,
         ⟨some 500, none⟩,
         ⟨some 200, some (baseItem "u3" "S3" (some "Beta"))⟩]
      = run_scrapers 0
          (run_scrapers 0 [] [⟨some 200, some (baseItem "u1" "S1" (some "Acme"))⟩])
          [⟨some 200, some (baseItem "u3" "S3" (some "Beta"))⟩] :=
  ⟨by decide,
    C4_failure_isolation 0 []
      [⟨some 200, some (baseItem "u1" "S1" (some "Acme"))⟩]
      [⟨some 200, some (baseItem "u3" "S3" (some "Beta"))⟩]
      ⟨some 500, none⟩ (by decide)⟩

/-! ## C1: idempotence of the ingestion run -/

/-- The dedup key of every draft a task could persist is already present in
the store `S` (vacuously true for tasks that fail before persisting). -/
def taskHandled (S : List UnlistedStock) (t : TaskRun) : Prop :=
  ∀ status item name, t.fetch = some status → status = 200 →
    t.scraped = some item → item.company_name = some name →
    hashIn S (create_unique_hash name item.source_url) = true

theorem hashIn_append (db ext : List UnlistedStock) (h : String) :
    hashIn (db ++ ext) h = (hashIn db h || hashIn ext h) := by
  simp [hashIn, List.any_append]

theorem taskHandled_append (S ext : List UnlistedStock) (t : TaskRun)
    (h : taskHandled S t) : taskHandled (S ++ ext) t := by
  intro status item name h1 h2 h3 h4
  rw [hashIn_append, h status item name h1 h2 h3 h4]
  rfl

/-- `process_and_save` either raises, skips, or appends one new row whose
key was absent. -/
theorem process_and_save_cases (now : Nat) (db : List UnlistedStock) (item : Item) :
    process_and_save now db item = none
    ∨ process_and_save now db item = some db
    ∨ ∃ name, item.company_name = some name
        ∧ hashIn db (create_unique_hash name item.source_url) = false
        ∧ process_and_save now db item
          = some (db ++ [mkStockRow now (create_unique_hash name item.source_url) name item]) := by
  cases hcn : item.company_name with
  | none => exact Or.inl (by simp [process_and_save, hcn])
  | some name =>
    by_cases hh : hashIn db (create_unique_hash name item.source_url) = true
    · exact Or.inr (Or.inl (process_and_save_skip now db item name hcn hh))
    · have hb : hashIn db (create_unique_hash name item.source_url) = false := by
        simpa using hh
      exact Or.inr (Or.inr ⟨name, rfl, hb, process_and_save_insert now db item name hcn hb⟩)

/-- A coordinator step either leaves the store unchanged or appends one row
whose key was absent. -/
theorem stepTask_cases (now : Nat) (db : List UnlistedStock) (t : TaskRun) :
    stepTask now db t = db
    ∨ ∃ name item, hashIn db (create_unique_hash name item.source_url) = false
        ∧ stepTask now db t
          = db ++ [mkStockRow now (create_unique_hash name item.source_url) name item] := by
  cases hft : t.fetch with
  | none => exact Or.inl (by simp [stepTask, hft])
  | some status =>
    by_cases h200 : status = 200
    · cases hsc : t.scraped with
      | none => exact Or.inl (by simp [stepTask, hft, h200, hsc])
      | some item =>
        rcases process_and_save_cases now db item with hp | hp | ⟨name, hcn, hb, hp⟩
        · exact Or.inl (by simp [stepTask, hft, h200, hsc, hp])
        · exact Or.inl (by simp [stepTask, hft, h200, hsc, hp])
        · exact Or.inr ⟨name, item, hb, by simp [stepTask, hft, h200, hsc, hp]⟩
    · exact Or.inl (by simp [stepTask, hft, h200])

/-- A coordinator step only ever appends to the store. -/
theorem stepTask_extends (now : Nat) (db : List UnlistedStock) (t : TaskRun) :
    ∃ ext, stepTask now db t = db ++ ext := by
  rcases stepTask_cases now db t with h | ⟨name, item, -, h⟩
  · exact ⟨[], by simp [h]⟩
  · exact ⟨_, h⟩

/-- A full run only ever appends to the store. -/
theorem run_scrapers_extends (now : Nat) (ts : List TaskRun) :
    ∀ db, ∃ ext, run_scrapers now db ts = db ++ ext := by
  induction ts with
  | nil => intro db; exact ⟨[], by simp [run_scrapers]⟩
  | cons t ts ih =>
    intro db
    obtain ⟨e1, he1⟩ := stepTask_extends now db t
    obtain ⟨e2, he2⟩ := ih (stepTask now db t)
    refine ⟨e1 ++ e2, ?_⟩
    show run_scrapers now (stepTask now db t) ts = db ++ (e1 ++ e2)
    rw [he2, he1, List.append_assoc]

/-- A handled task's step performs no write. -/
theorem stepTask_of_handled (now : Nat) (S : List UnlistedStock) (t : TaskRun)
    (h : taskHandled S t) : stepTask now S t = S := by
  cases hft : t.fetch with
  | none => simp [stepTask, hft]
  | some status =>
    by_cases h200 : status = 200
    · cases hsc : t.scraped with
      | none => simp [stepTask, hft, h200, hsc]
      | some item =>
        cases hcn : item.company_name with
        | none => simp [stepTask, hft, h200, hsc, process_and_save, hcn]
        | some name =>
          have hdup := h status item name hft h200 hsc hcn
          simp [stepTask, hft, h200, hsc,
            process_and_save_skip now S item name hcn hdup]
    · simp [stepTask, hft, h200]

/-- After its own step, a task is handled: its key is in the store. -/
theorem stepTask_handles (now : Nat) (S : List UnlistedStock) (t : TaskRun) :
    taskHandled (stepTask now S t) t := by
  intro status item name h1 h2 h3 h4
  subst h2
  by_cases hdup : hashIn S (create_unique_hash name item.source_url) = true
  · have hstep : stepTask now S t = S := by
      simp [stepTask, h1, h3, process_and_save_skip now S item name h4 hdup]
    rw [hstep]
    exact hdup
  · have hb : hashIn S (create_unique_hash name item.source_url) = false := by
      simpa using hdup
    have hstep : stepTask now S t
        = S ++ [mkStockRow now (create_unique_hash name item.source_url) name item] := by
      simp [stepTask, h1, h3, process_and_save_insert now S item name h4 hb]
    rw [hstep, hashIn_append]
    have hone : hashIn [mkStockRow now (create_unique_hash name item.source_url) name item]
        (create_unique_hash name item.source_url) = true := by
      simp [hashIn, mkStockRow]
    rw [hone]
    simp

/-- After a run, every task of the run is handled by the resulting store. -/
theorem run_scrapers_handles (now : Nat) (ts : List TaskRun) :
    ∀ S, ∀ t ∈ ts, taskHandled (run_scrapers now S ts) t := by
  induction ts with
  | nil => intro S t ht; cases ht
  | cons hd tl ih =>
    intro S t ht
    cases List.mem_cons.mp ht with
    | inl heq =>
      subst heq
      show taskHandled (run_scrapers now (stepTask now S t) tl) t
      obtain ⟨ext, hext⟩ := run_scrapers_extends now tl (stepTask now S t)
      rw [hext]
      exact taskHandled_append _ ext t (stepTask_handles now S t)
    | inr htl => exact ih (stepTask now S hd) t htl

/-- A run whose tasks are all already handled performs no write at all. -/
theorem run_scrapers_of_all_handled (now : Nat) (ts : List TaskRun) :
    ∀ S, (∀ t ∈ ts, taskHandled S t) → run_scrapers now S ts = S := by
  induction ts with
  | nil => intro S _; rfl
  | cons hd tl ih =>
    intro S h
    have hstep : stepTask now S hd = S :=
      stepTask_of_handled now S hd (h hd (List.mem_cons_self hd tl))
    show run_scrapers now (stepTask now S hd) tl = S
    rw [hstep]
    exact ih S (fun t ht => h t (List.mem_cons_of_mem hd ht))

/-- A coordinator step preserves distinctness of the stored dedup keys. -/
theorem stepTask_nodup (now : Nat) (db : List UnlistedStock) (t : TaskRun)
    (h : (db.map (fun r => r.unique_hash)).Nodup) :
    ((stepTask now db t).map (fun r => r.unique_hash)).Nodup := by
  rcases stepTask_cases now db t with hs | ⟨name, item, hb, hs⟩
  · rw [hs]; exact h
  · rw [hs]
    have hnotin : create_unique_hash name item.source_url
        ∉ db.map (fun r => r.unique_hash) := by
      intro hmem
      obtain ⟨r, hr, hrh⟩ := List.mem_map.mp hmem
      have hany : hashIn db (create_unique_hash name item.source_url) = true := by
        unfold hashIn
        refine List.any_eq_true.mpr ⟨r, hr, ?_⟩
        simp [hrh]
      rw [hany] at hb
      cases hb
    simp only [List.map_append, List.map_cons, List.map_nil]
    rw [List.nodup_append]
    refine ⟨h, List.nodup_singleton _, ?_⟩
    intro a ha hb2
    simp only [mkStockRow, List.mem_singleton] at hb2
    subst hb2
    exact hnotin ha

/-- A full run preserves distinctness of the stored dedup keys. -/
theorem run_scrapers_nodup (now : Nat) (ts : List TaskRun) :
    ∀ db, (db.map (fun r => r.unique_hash)).Nodup →
      ((run_scrapers now db ts).map (fun r => r.unique_hash)).Nodup := by
  induction ts with
  | nil => intro db h; exact h
  | cons hd tl ih =>
    intro db h
    exact ih (stepTask now db hd) (stepTask_nodup now db hd h)

/-- C1: running the coordinator twice over the same task list (identical
fetch responses) is idempotent — the second run performs no write and leaves
the store exactly as the first run left it, every already-present dedup key
leading to a duplicate-skip; moreover a run preserves the store invariant
that each dedup key has exactly one persisted listing. -/
theorem C1_run_idempotent (now₁ now₂ : Nat) (db : List UnlistedStock)
    (tasks : List TaskRun) :
    run_scrapers now₂ (run_scrapers now₁ db tasks) tasks = run_scrapers now₁ db tasks
    ∧ ((db.map (fun r => r.unique_hash)).Nodup →
        ((run_scrapers now₁ db tasks).map (fun r => r.unique_hash)).Nodup) :=
  ⟨run_scrapers_of_all_handled now₂ tasks (run_scrapers now₁ db tasks)
      (fun t ht => run_scrapers_handles now₁ tasks db t ht),
    fun h => run_scrapers_nodup now₁ tasks db h⟩

/-- Witness for C1 on a concrete store and task list. -/
theorem C1_run_idempotent_witness :
    (([] : List UnlistedStock).map (fun r => r.unique_hash)).Nodup
    ∧ ((run_scrapers 0 [] [⟨some 200, some (baseItem "u" "S" (some "Acme"))⟩]).map
        (fun r => r.unique_hash)).Nodup
    ∧ run_scrapers 1 (run_scrapers 0 [] [⟨some 200, some (baseItem "u" "S" (some "Acme"))⟩])
        [⟨some 200, some (baseItem "u" "S" (some "Acme"))⟩]
      = run_scrapers 0 [] [⟨some 200, some (baseItem "u" "S" (some "Acme"))⟩] :=
  ⟨by simp,
    (C1_run_idempotent 0 1 [] [⟨some 200, some (baseItem "u" "S" (some "Acme"))⟩]).2 (by simp),
    (C1_run_idempotent 0 1 [] [⟨some 200, some (baseItem "u" "S" (some "Acme"))⟩]).1⟩

/-! ## C8: the read endpoints -/

/-- The query string contains no SQL LIKE metacharacter, so `ILIKE '%q%'`
means exactly case-insensitive substring containment. -/
def noMeta (l : List Char) : Bool := l.all (fun c => !(c == '%') && !(c == '_'))

/-- A pattern starting with `%` matches a string exactly when the rest of the
pattern matches some suffix (soundness direction). -/
theorem likeMatch_pct (ps : List Char) :
    ∀ s, likeMatch ('%' :: ps) s = true → ∃ t, t <:+ s ∧ likeMatch ps t = true := by
  intro s
  induction s with
  | nil =>
    intro h
    have hrw : likeMatch ('%' :: ps) [] = (likeMatch ps [] || false) := by
      simp [likeMatch]
    rw [hrw, Bool.or_false] at h
    exact ⟨[], List.suffix_refl [], h⟩
  | cons c t ih =>
    intro h
    have hrw : likeMatch ('%' :: ps) (c :: t)
        = (likeMatch ps (c :: t) || likeMatch ('%' :: ps) t) := by
      simp [likeMatch]
    rw [hrw, Bool.or_eq_true] at h
    cases h with
    | inl hl => exact ⟨c :: t, List.suffix_refl _, hl⟩
    | inr hr =>
      obtain ⟨u, hsuf, hm⟩ := ih hr
      exact ⟨u, hsuf.trans (List.suffix_cons c t), hm⟩

/-- A metacharacter-free pattern followed by `%` matches exactly the strings
it is a prefix of (soundness direction). -/
theorem likeMatch_plain : ∀ ps, noMeta ps = true →
    ∀ s, likeMatch (ps ++ ['%']) s = true → startsWithChars ps s = true := by
  intro ps
  induction ps with
  | nil => intro _ s _; rfl
  | cons p ps ih =>
    intro hm s h
    have hall := List.all_eq_true.mp hm
    have hp := hall p (List.mem_cons_self p ps)
    rw [Bool.and_eq_true] at hp
    obtain ⟨hp1, hp2⟩ := hp
    have hp1' : ¬(p = '%') := by simpa using hp1
    have hp2' : ¬(p = '_') := by simpa using hp2
    have hm' : noMeta ps = true :=
      List.all_eq_true.mpr (fun x hx => hall x (List.mem_cons_of_mem p hx))
    cases s with
    | nil =>
      have : likeMatch ((p :: ps) ++ ['%']) [] = false := by
        simp [likeMatch, hp1']
      rw [this] at h
      cases h
    | cons c t =>
      have hrw : likeMatch ((p :: ps) ++ ['%']) (c :: t)
          = ((p == c) && likeMatch (ps ++ ['%']) t) := by
        simp [likeMatch, hp1', hp2']
      rw [hrw, Bool.and_eq_true] at h
      obtain ⟨hpc, hrest⟩ := h
      show ((p == c) && startsWithChars ps t) = true
      rw [Bool.and_eq_true]
      exact ⟨hpc, ih hm' t hrest⟩

/-- `containsChars` holds whenever the needle is an initial segment of some
suffix of the haystack. -/
theorem containsChars_of_suffix (n : List Char) :
    ∀ h t, t <:+ h → startsWithChars n t = true → containsChars n h = true := by
  intro h
  induction h with
  | nil =>
    intro t hsuf hst
    have ht : t = [] := List.suffix_nil.mp hsuf
    subst ht
    exact hst
  | cons b bs ih =>
    intro t hsuf hst
    rcases List.suffix_cons_iff.mp hsuf with heq | hsuf2
    · subst heq
      show (startsWithChars n (b :: bs) || containsChars n bs) = true
      rw [hst]
      rfl
    · show (startsWithChars n (b :: bs) || containsChars n bs) = true
      rw [ih t hsuf2 hst]
      simp

/-- The spec's ordering on listings: `retrieved_at` descending. -/
def sortedByRetrievedDesc (l : List UnlistedStock) : Prop :=
  l.Pairwise (fun a b => b.retrieved_at ≤ a.retrieved_at)

theorem retDesc_trans : ∀ a b c : UnlistedStock, retDesc a b → retDesc b c → retDesc a c := by
  intro a b c h1 h2
  simp only [retDesc, Nat.ble_eq] at h1 h2 ⊢
  omega

theorem retDesc_total : ∀ a b : UnlistedStock, retDesc a b || retDesc b a := by
  intro a b
  simp only [retDesc, Bool.or_eq_true, Nat.ble_eq]
  omega

/-- Any truncation of a `retDesc`-merge-sorted list is ordered by
`retrieved_at` descending. -/
theorem sorted_take_mergeSort (l : List UnlistedStock) (n : Nat) :
    sortedByRetrievedDesc ((l.mergeSort retDesc).take n) := by
  have hs := List.sorted_mergeSort retDesc_trans retDesc_total l
  have hp := hs.sublist (List.take_sublist n (l.mergeSort retDesc))
  exact hp.imp (fun h => Nat.le_of_ble_eq_true h)

/-- C8: the broad listing query returns only rows matching both supplied
(nonempty) exact-match filters, ordered by `retrieved_at` descending, with
the limit defaulting to 50; the most-recent view returns at most 10 rows;
the company-name search (for a query without SQL LIKE metacharacters)
returns only rows whose lowercased name contains the lowercased query as a
substring, at most 25 of them, also ordered by `retrieved_at` descending. -/
theorem C8_read_endpoints (db : List UnlistedStock) (s c : String) (lim : Nat) (q : String)
    (hs : s ≠ "") (hc : c ≠ "") (hq : noMeta (pyLower q).data = true) :
    (∀ x ∈ get_listings db (some s) (some c) lim, x.sector = some s ∧ x.country = some c)
    ∧ sortedByRetrievedDesc (get_listings db (some s) (some c) lim)
    ∧ (get_listings db (some s) (some c)).length ≤ 50
    ∧ get_listings db (some s) (some c) = get_listings db (some s) (some c) 50
    ∧ (get_latest_listings db).length ≤ 10
    ∧ (∀ x ∈ search_listings q db,
        containsChars (pyLower q).data (pyLower x.company_name).data = true)
    ∧ (search_listings q db).length ≤ 25
    ∧ sortedByRetrievedDesc (search_listings q db) := by
  have hts : truthy (some s) = true := by simp [truthy, hs]
  have htc : truthy (some c) = true := by simp [truthy, hc]
  have hunfold : ∀ lim', get_listings db (some s) (some c) lim'
      = (((db.filter (fun x => x.sector == some s)).filter
            (fun x => x.country == some c)).mergeSort retDesc).take lim' := by
    intro lim'
    simp [get_listings, hts, htc]
  refine ⟨?_, ?_, ?_, rfl, ?_, ?_, ?_, ?_⟩
  · intro x hx
    rw [hunfold] at hx
    have hx2 := List.mem_mergeSort.mp ((List.take_sublist _ _).subset hx)
    have hx3 := List.mem_filter.mp hx2
    have hx4 := List.mem_filter.mp hx3.1
    exact ⟨by simpa using hx4.2, by simpa using hx3.2⟩
  · rw [hunfold]
    exact sorted_take_mergeSort _ lim
  · rw [hunfold]
    exact List.length_take_le 50 _
  · have hlat : get_latest_listings db = (db.mergeSort retDesc).take 10 := by
      simp [get_latest_listings, get_listings, truthy]
    rw [hlat]
    exact List.length_take_le 10 _
  · intro x hx
    by_cases hq0 : q = ""
    · subst hq0
      rw [show search_listings "" db = [] from rfl] at hx
      cases hx
    · have hse : search_listings q db
          = ((db.filter (fun x =>
              likeMatch (pyLower ("%" ++ q ++ "%")).data (pyLower x.company_name).data)).mergeSort
            retDesc).take 25 := by
        simp [search_listings, hq0]
      rw [hse] at hx
      have hx2 := List.mem_mergeSort.mp ((List.take_sublist _ _).subset hx)
      have hx3 := (List.mem_filter.mp hx2).2
      have h37 : Char.toLower '%' = '%' := rfl
      have hpat : (pyLower ("%" ++ q ++ "%")).data = '%' :: ((pyLower q).data ++ ['%']) := by
        simp [pyLower, String.data_append, h37]
      rw [hpat] at hx3
      obtain ⟨t, hsuf, hm⟩ := likeMatch_pct _ _ hx3
      exact containsChars_of_suffix _ _ t hsuf (likeMatch_plain _ hq t hm)
  · by_cases hq0 : q = ""
    · subst hq0
      rw [show search_listings "" db = [] from rfl]
      simp
    · have hse : search_listings q db
          = ((db.filter (fun x =>
              likeMatch (pyLower ("%" ++ q ++ "%")).data (pyLower x.company_name).data)).mergeSort
            retDesc).take 25 := by
        simp [search_listings, hq0]
      rw [hse]
      exact List.length_take_le 25 _
  · by_cases hq0 : q = ""
    · subst hq0
      rw [show search_listings "" db = [] from rfl]
      exact List.Pairwise.nil
    · have hse : search_listings q db
          = ((db.filter (fun x =>
              likeMatch (pyLower ("%" ++ q ++ "%")).data (pyLower x.company_name).data)).mergeSort
            retDesc).take 25 := by
        simp [search_listings, hq0]
      rw [hse]
      exact sorted_take_mergeSort _ 25

/-- A one-row store used to witness C8. -/
def dbW : List UnlistedStock :=
  [{ unique_hash := "h1", company_name := "Acme Corp", status := some "Pre-IPO",
     last_known_price := none, price_currency := some "INR", sector := some "Finance",
     country := some "India", source_name := "S", source_url := "u",
     additional_metadata := none, retrieved_at := 5 }]

/-- Witness for C8 at a concrete store, filters and query. -/
theorem C8_read_endpoints_witness :
    ("Finance" : String) ≠ "" ∧ ("India" : String) ≠ ""
    ∧ noMeta (pyLower "acme").data = true
    ∧ (get_latest_listings dbW).length ≤ 10
    ∧ (search_listings "acme" dbW).length ≤ 25 := by
  have h := C8_read_endpoints dbW "Finance" "India" 50 "acme"
    (by decide) (by decide) (by decide)
  exact ⟨by decide, by decide, by decide, h.2.2.2.2.1, h.2.2.2.2.2.2.1⟩
